import Mathlib

/-!
Verification of the DLT stream framer and websocket relay against their
specification.  The repository has two Python source files:

* `src/examples/dlt_hex_viewer.py` — `read_dlt_packet(sock)` reads one
  length-prefixed DLT frame from a TCP socket;
* `src/examples/dlt_websocket_bridge.py` — `read_from_dlt` ingests raw
  chunks from the daemon into an asyncio queue, `broadcast_messages`
  fans queue entries out to the registered websocket clients.

Byte streams are embedded as a `Sock`: the remaining bytes of the stream
together with a delivery schedule saying how many bytes the OS hands
over at each successive `recv`/`read` call.  Bytes are `Nat`s; theorems
that need genuine octets carry an explicit `< 256` hypothesis.
-/

namespace DltProtocol

/-- A byte-stream endpoint.  `data` is the sequence of bytes the stream
will still deliver; `sched` is an oracle for the kernel: entry `k` caps
how many bytes the `k`-th read call returns.  When `sched` is exhausted
a read returns as much as was requested (up to what is left).  An empty
result models end-of-stream when `data` is empty, and a short delivery
otherwise. -/
structure Sock where
  data : List Nat
  sched : List Nat
deriving DecidableEq

/-- `sock.recv(n)` / `reader.read(n)`: returns at most `n` bytes — the
next `min (min cap n) available` bytes of the stream — and the advanced
stream. -/
def recv (s : Sock) (n : Nat) : List Nat × Sock :=
  let k := min (min (s.sched.headD n) n) s.data.length
  (s.data.take k, ⟨s.data.drop k, s.sched.tail⟩)

/-- Observable outcome of `read_dlt_packet`, from `dlt_hex_viewer.py`
lines 39–64.  The Python returns `None` on two distinct observable
paths: with no console output (short header read, or empty chunk while
reading the payload) — `eof` — and after printing
`"Invalid message length: {msg_len}"` — `framingError msg_len`.  A
completed frame is returned as `bytes` — `packet`. -/
inductive DltReadResult where
  | eof : DltReadResult
  | framingError (len : Nat) : DltReadResult
  | packet (bs : List Nat) : DltReadResult
deriving DecidableEq

/-- The `while remaining > 0` payload loop of `read_dlt_packet`
(lines 57–62): `chunk = sock.recv(remaining)`; an empty chunk aborts
with `None`; otherwise the chunk is appended to `message` and
`remaining` decreases by its length.  `fuel` makes the recursion
structural; every productive iteration consumes at least one of the
`remaining` bytes, so `fuel = remaining` never runs out (see
`payload_go_fuel_irrelevant` uses below). -/
def payload_go (fuel : Nat) (s : Sock) (remaining : Nat) (message : List Nat) :
    Option (List Nat) × Sock :=
  match fuel, remaining with
  | _, 0 => (some message, s)
  | 0, _ + 1 => (none, s)
  | f + 1, r + 1 =>
    let c := recv s (r + 1)
    if c.1 = [] then (none, c.2)
    else payload_go f c.2 (r + 1 - c.1.length) (message ++ c.1)

/-- The payload loop entered with `remaining = msg_len - 4` and
`message = bytearray(std_header)`. -/
def read_payload_loop (s : Sock) (remaining : Nat) (message : List Nat) :
    Option (List Nat) × Sock :=
  payload_go remaining s remaining message

/-- `read_dlt_packet(sock)` from `dlt_hex_viewer.py`:
`std_header = sock.recv(4)`; `None` if fewer than 4 bytes came back;
`msg_len = struct.unpack(">H", std_header[2:4])[0]` i.e. big-endian
bytes 2–3; the warning + `None` when `msg_len < 4 or msg_len > 65535`;
otherwise the payload loop reads `msg_len - 4` further bytes and the
whole header-plus-payload buffer is returned. -/
def read_dlt_packet (s : Sock) : DltReadResult × Sock :=
  let r := recv s 4
  if r.1.length < 4 then (DltReadResult.eof, r.2)
  else
    let msg_len := r.1.getD 2 0 * 256 + r.1.getD 3 0
    if msg_len < 4 ∨ msg_len > 65535 then (DltReadResult.framingError msg_len, r.2)
    else
      let p := read_payload_loop r.2 (msg_len - 4) r.1
      match p.1 with
      | some msg => (DltReadResult.packet msg, p.2)
      | none => (DltReadResult.eof, p.2)

/-- The Frame invariant of spec §3: the byte length of the frame equals
the big-endian 16-bit length field at header bytes 2–3, and lies in
`[4, 65535]`. -/
def isDltFrame (bs : List Nat) : Prop :=
  bs.length = bs.getD 2 0 * 256 + bs.getD 3 0 ∧ 4 ≤ bs.length ∧ bs.length ≤ 65535

instance (bs : List Nat) : Decidable (isDltFrame bs) := by
  unfold isDltFrame
  infer_instance

/-!
### `dlt_websocket_bridge.py`

`read_from_dlt` (lines 22–47): an outer reconnect loop; once connected,
an inner loop `data = await reader.read(4096)` — empty result means the
daemon closed the stream and breaks the inner loop — otherwise
`await message_queue.put(data)`.  The inner loop is embedded below as
`read_from_dlt_inner`, returning the list of chunks put on the queue, in
order, together with the final stream state.  `fuel` makes the recursion
structural; every pushed chunk consumes at least one byte, so
`s.data.length + 1` fuel never runs out.
-/

def inner_go (fuel : Nat) (s : Sock) : List (List Nat) × Sock :=
  match fuel with
  | 0 => ([], s)
  | f + 1 =>
    let c := recv s 4096
    if c.1 = [] then ([], c.2)
    else
      let r := inner_go f c.2
      (c.1 :: r.1, r.2)

/-- The chunks `read_from_dlt` puts on `message_queue` while one
connection lasts, in the order they are read from the daemon. -/
def read_from_dlt_inner (s : Sock) : List (List Nat) × Sock :=
  inner_go (s.data.length + 1) s

/-- How one pass of `read_from_dlt`'s outer `while True` ends (lines
28–47): the inner read loop breaks on an empty read (`streamClosed`),
`asyncio.open_connection` raises `ConnectionRefusedError`
(`connectRefused`), some other exception is raised while connecting or
reading (`otherIOError`), or the task is cancelled (`cancelled`). -/
inductive UpstreamFailure where
  | streamClosed : UpstreamFailure
  | connectRefused : UpstreamFailure
  | otherIOError : UpstreamFailure
  | cancelled : UpstreamFailure
deriving DecidableEq

/-- Effect of finishing one pass of the outer loop: how many seconds
are slept before the next connection attempt, whether the `finally`
block closes the writer (it always runs; it guards on a writer variable
existing), and whether the outer loop is exited. -/
structure StepEffect where
  sleepSeconds : Nat
  releasesWriter : Bool
  exitsLoop : Bool
deriving DecidableEq

/-- Transcription of the `except`/`finally` routing of `read_from_dlt`:
`except asyncio.CancelledError: break`;
`except ConnectionRefusedError: ... await asyncio.sleep(5)`;
`except Exception: ... await asyncio.sleep(5)`;
a `break` of the inner loop on an empty read reaches no handler, so only
the `finally` block runs and the outer loop immediately retries. -/
def read_from_dlt_step : UpstreamFailure → StepEffect
  | UpstreamFailure.streamClosed => ⟨0, true, false⟩
  | UpstreamFailure.connectRefused => ⟨5, true, false⟩
  | UpstreamFailure.otherIOError => ⟨5, true, false⟩
  | UpstreamFailure.cancelled => ⟨0, true, true⟩

/-- A websocket client as the broadcaster sees it: an identity (the
`websocket_clients` set holds distinct connection objects; `cid` stands
for that reference identity) and whether `await ws.send(data)` raises
for it. -/
structure Client where
  cid : Nat
  sendFails : Bool
deriving DecidableEq

/-- The `for ws in list(websocket_clients)` loop of `broadcast_messages`
(lines 54–60): iterate over a snapshot of the registry; a successful
`ws.send(data)` is recorded in the delivery log; a raising send is
caught and `websocket_clients.discard(ws)` removes that client from the
live set.  Returns the live set and the log. -/
def send_all (data : List Nat) :
    List Client → List Client → List (Nat × List Nat) →
    List Client × List (Nat × List Nat)
  | [], clients, log => (clients, log)
  | c :: rest, clients, log =>
    if c.sendFails then
      send_all data rest (clients.filter (fun x => x.cid != c.cid)) log
    else
      send_all data rest clients (log ++ [(c.cid, data)])

/-- One iteration of `broadcast_messages` (lines 51–62) applied to the
queue entry `data`: if `websocket_clients` is empty the entry is dropped
(third component `true`, the "No clients, data dropped" branch);
otherwise every client in the snapshot is tried.  Returns the registry
afterwards, the deliveries made, and the dropped flag. -/
def broadcast_messages_step (data : List Nat) (clients : List Client) :
    List Client × List (Nat × List Nat) × Bool :=
  if clients.isEmpty then (clients, [], true)
  else
    let r := send_all data clients clients []
    (r.1, r.2, false)

/-- Interleaved history of the bridge: `broadcast_messages` pops a queue
entry (`frame`), `websocket_handler` registers a newly accepted client
(`join`) or removes a disconnected one (`leave`). -/
inductive BridgeEvent where
  | frame (data : List Nat) : BridgeEvent
  | join (c : Client) : BridgeEvent
  | leave (cid : Nat) : BridgeEvent

/-- Run of the bridge over a history of events, starting from a given
registry: returns the final registry and the concatenated delivery log. -/
def bridge_run : List BridgeEvent → List Client → List Client × List (Nat × List Nat)
  | [], clients => (clients, [])
  | BridgeEvent.frame d :: es, clients =>
    let p := broadcast_messages_step d clients
    let r := bridge_run es p.1
    (r.1, p.2.1 ++ r.2)
  | BridgeEvent.join c :: es, clients => bridge_run es (clients ++ [c])
  | BridgeEvent.leave i :: es, clients =>
    bridge_run es (clients.filter (fun x => x.cid != i))

/-- The sequence of payloads the client with identity `i` received, in
delivery order. -/
def receivedBy (i : Nat) (log : List (Nat × List Nat)) : List (List Nat) :=
  (log.filter (fun p => p.1 == i)).map (fun p => p.2)

/-- A client survives a broadcast pass over `snap` iff no failing
snapshot entry has its identity. -/
def survives (snap : List Client) (x : Client) : Bool :=
  snap.all (fun c => !c.sendFails || x.cid != c.cid)

/-! ### Helper lemmas: lists -/

lemma getD_append_left : ∀ (l l' : List Nat) (n d : Nat), n < l.length →
    (l ++ l').getD n d = l.getD n d
  | a :: t, l', 0, d, _ => rfl
  | a :: t, l', n + 1, d, h => by
    simpa [List.getD_cons_succ] using getD_append_left t l' n d (by simpa using h)
  | [], _, n, _, h => absurd h (by simp)

lemma getD_mem : ∀ (l : List Nat) (n d : Nat), n < l.length → l.getD n d ∈ l
  | a :: t, 0, d, _ => by simp
  | a :: t, n + 1, d, h => by
    simpa [List.getD_cons_succ] using List.mem_cons_of_mem a (getD_mem t n d (by simpa using h))
  | [], n, d, h => absurd h (by simp)

/-! ### Helper lemmas: `recv` and the payload loop -/

lemma recv_fst_length_le (s : Sock) (n : Nat) : (recv s n).1.length ≤ n := by
  simp only [recv, List.length_take]
  omega

lemma recv_fst_subset (s : Sock) (n : Nat) : ∀ b ∈ (recv s n).1, b ∈ s.data := by
  intro b hb
  exact List.take_subset _ _ hb

/-- A successfully completed payload loop extends `message` by exactly
`remaining` bytes. -/
lemma payload_go_some : ∀ (fuel remaining : Nat) (s : Sock) (message out : List Nat) (s' : Sock),
    remaining ≤ fuel → payload_go fuel s remaining message = (some out, s') →
    ∃ extra, out = message ++ extra ∧ extra.length = remaining := by
  intro fuel
  induction fuel with
  | zero =>
    intro remaining s message out s' hle h
    have hr : remaining = 0 := Nat.le_zero.mp hle
    subst hr
    simp only [payload_go, Prod.mk.injEq, Option.some.injEq] at h
    exact ⟨[], by simp [h.1.symm], rfl⟩
  | succ f ih =>
    intro remaining s message out s' hle h
    match remaining, h with
    | 0, h =>
      simp only [payload_go, Prod.mk.injEq, Option.some.injEq] at h
      exact ⟨[], by simp [h.1.symm], rfl⟩
    | r + 1, h =>
      simp only [payload_go] at h
      by_cases hne : (recv s (r + 1)).1 = []
      · rw [if_pos hne] at h
        simp at h
      · rw [if_neg hne] at h
        have hlen1 : 1 ≤ (recv s (r + 1)).1.length :=
          List.length_pos.mpr hne
        have hlenle : (recv s (r + 1)).1.length ≤ r + 1 := recv_fst_length_le s (r + 1)
        obtain ⟨extra, hout, hextra⟩ :=
          ih (r + 1 - (recv s (r + 1)).1.length) (recv s (r + 1)).2
            (message ++ (recv s (r + 1)).1) out s' (by omega) h
        refine ⟨(recv s (r + 1)).1 ++ extra, by simp [hout], ?_⟩
        simp only [List.length_append, hextra]
        omega

/-- Completing the payload loop on a stream that starts with exactly the
`remaining` missing bytes returns `message ++ payload` and leaves the
rest of the stream unread, for every delivery schedule whose entries are
positive (a blocking read returns at least one byte while the stream is
open), no matter how the payload is split across reads. -/
lemma payload_go_reads : ∀ (fuel remaining : Nat) (payload rest sched message : List Nat),
    payload.length = remaining → remaining ≤ fuel → (∀ x ∈ sched, 1 ≤ x) →
    ∃ sch, payload_go fuel ⟨payload ++ rest, sched⟩ remaining message =
      (some (message ++ payload), ⟨rest, sch⟩) := by
  intro fuel
  induction fuel with
  | zero =>
    intro remaining payload rest sched message hplen hle _
    have hr : remaining = 0 := Nat.le_zero.mp hle
    subst hr
    have hp : payload = [] := List.length_eq_zero.mp hplen
    subst hp
    exact ⟨sched, by simp [payload_go]⟩
  | succ f ih =>
    intro remaining payload rest sched message hplen hle hsched
    match remaining with
    | 0 =>
      have hp : payload = [] := List.length_eq_zero.mp hplen
      subst hp
      exact ⟨sched, by simp [payload_go]⟩
    | r + 1 =>
      have hhd : 1 ≤ sched.headD (r + 1) := by
        match sched with
        | [] => simp
        | a :: t => exact hsched a (by simp)
      have hlen : (payload ++ rest).length = (r + 1) + rest.length := by
        simp [hplen]
      set k := min (min (sched.headD (r + 1)) (r + 1)) (payload ++ rest).length with hk
      have hk1 : 1 ≤ k := by
        simp only [hk, hlen]
        omega
      have hkr : k ≤ r + 1 := by
        simp only [hk]
        omega
      have hkp : k ≤ payload.length := by omega
      have hchunk : (recv ⟨payload ++ rest, sched⟩ (r + 1)).1 = payload.take k := by
        simp only [recv, ← hk]
        exact List.take_append_of_le_length hkp
      have hchunklen : (payload.take k).length = k := by
        simp [List.length_take]
        omega
      have hchunkne : (recv ⟨payload ++ rest, sched⟩ (r + 1)).1 ≠ [] := by
        rw [hchunk]
        intro hcontra
        rw [hcontra] at hchunklen
        simp at hchunklen
        omega
      have hrest : (recv ⟨payload ++ rest, sched⟩ (r + 1)).2 =
          ⟨payload.drop k ++ rest, sched.tail⟩ := by
        simp only [recv, ← hk]
        rw [List.drop_append_of_le_length hkp]
      obtain ⟨sch, hrec⟩ := ih (r + 1 - k) (payload.drop k) rest sched.tail
        (message ++ payload.take k)
        (by simp [List.length_drop, hplen]) (by omega)
        (fun x hx => hsched x (List.mem_of_mem_tail hx))
      refine ⟨sch, ?_⟩
      simp only [payload_go]
      rw [if_neg hchunkne, hchunk, hchunklen, hrest, hrec]
      simp [List.append_assoc, List.take_append_drop]

/-! ### Helper lemmas: the bridge ingest loop -/

/-- While the fuel dominates the bytes left, the ingest inner loop pushes
only nonempty chunks and their concatenation is exactly the prefix of
the stream it consumed. -/
lemma inner_go_spec : ∀ (fuel : Nat) (s : Sock), s.data.length < fuel →
    ((inner_go fuel s).1.all (fun e => !e.isEmpty) = true) ∧
    ((inner_go fuel s).1.flatten ++ (inner_go fuel s).2.data = s.data) := by
  intro fuel
  induction fuel with
  | zero =>
    intro s h
    exact absurd h (Nat.not_lt_zero _)
  | succ f ih =>
    intro s h
    simp only [inner_go]
    by_cases hne : (recv s 4096).1 = []
    · rw [if_pos hne]
      refine ⟨by simp, ?_⟩
      have hdrop : (recv s 4096).2.data = s.data := by
        simp only [recv] at hne ⊢
        rcases List.take_eq_nil_iff.mp hne with h0 | h0
        · rw [h0, List.drop_zero]
        · rw [h0]
          simp
      simp [hdrop]
    · rw [if_neg hne]
      have h1 : 1 ≤ (recv s 4096).1.length := List.length_pos.mpr hne
      have hlens : (recv s 4096).1.length + (recv s 4096).2.data.length = s.data.length := by
        simp only [recv, List.length_take, List.length_drop]
        omega
      obtain ⟨iha, ihj⟩ := ih (recv s 4096).2 (by omega)
      refine ⟨by simp [List.all_cons, iha, List.isEmpty_iff, hne], ?_⟩
      simp only [List.flatten_cons, List.append_assoc, ihj]
      simp only [recv]
      exact List.take_append_drop _ _

/-! ### Helper lemmas: the broadcaster -/

lemma send_all_log (d : List Nat) : ∀ (snap clients : List Client) (log : List (Nat × List Nat)),
    (send_all d snap clients log).2 =
      log ++ (snap.filter (fun c => !c.sendFails)).map (fun c => (c.cid, d)) := by
  intro snap
  induction snap with
  | nil =>
    intro clients log
    simp [send_all]
  | cons c rest ih =>
    intro clients log
    by_cases hf : c.sendFails
    · simp [send_all, hf, ih, List.filter_cons]
    · simp [send_all, hf, ih, List.filter_cons]

lemma send_all_clients (d : List Nat) :
    ∀ (snap clients : List Client) (log : List (Nat × List Nat)),
    (send_all d snap clients log).1 = clients.filter (survives snap) := by
  intro snap
  induction snap with
  | nil =>
    intro clients log
    have h1 : ∀ x ∈ clients, survives [] x = (fun _ : Client => true) x :=
      fun x _ => by simp [survives]
    simp only [send_all]
    rw [List.filter_congr h1, List.filter_true]
  | cons c rest ih =>
    intro clients log
    by_cases hf : c.sendFails
    · rw [show send_all d (c :: rest) clients log =
          send_all d rest (clients.filter (fun x => x.cid != c.cid)) log from by
        simp [send_all, hf]]
      rw [ih, List.filter_filter]
      apply List.filter_congr
      intro x _
      simp [survives, List.all_cons, hf, Bool.and_comm]
    · rw [show send_all d (c :: rest) clients log =
          send_all d rest clients (log ++ [(c.cid, d)]) from by simp [send_all, hf]]
      rw [ih]
      apply List.filter_congr
      intro x _
      simp [survives, List.all_cons, hf]

lemma broadcast_step_nonempty (d : List Nat) (cs : List Client) (h : cs ≠ []) :
    broadcast_messages_step d cs =
      (cs.filter (survives cs),
       (cs.filter (fun c => !c.sendFails)).map (fun c => (c.cid, d)), false) := by
  rw [broadcast_messages_step, if_neg (by simp [List.isEmpty_iff, h])]
  simp only [send_all_clients, send_all_log, List.nil_append]

lemma nodup_cid_inj : ∀ (cs : List Client), (cs.map Client.cid).Nodup →
    ∀ c ∈ cs, ∀ c' ∈ cs, c.cid = c'.cid → c = c' := by
  intro cs
  induction cs with
  | nil => simp
  | cons a t ih =>
    intro hnd c hc c' hc' heq
    simp only [List.map_cons, List.nodup_cons] at hnd
    obtain ⟨hna, hnt⟩ := hnd
    rcases List.mem_cons.mp hc with rfl | hct
    · rcases List.mem_cons.mp hc' with rfl | hct'
      · rfl
      · exact absurd (by rw [heq]; exact List.mem_map_of_mem _ hct') hna
    · rcases List.mem_cons.mp hc' with rfl | hct'
      · exact absurd (by rw [← heq]; exact List.mem_map_of_mem _ hct) hna
      · exact ih hnt c hct c' hct' heq

lemma filter_cid_singleton : ∀ (cs : List Client) (c : Client), (cs.map Client.cid).Nodup →
    c ∈ cs → cs.filter (fun x => x.cid == c.cid) = [c] := by
  intro cs
  induction cs with
  | nil =>
    intro c _ hc
    simp at hc
  | cons a t ih =>
    intro c hnd hc
    simp only [List.map_cons, List.nodup_cons] at hnd
    obtain ⟨hna, hnt⟩ := hnd
    rcases List.mem_cons.mp hc with rfl | hct
    · rw [List.filter_cons, if_pos (by simp)]
      have hnil : t.filter (fun x => x.cid == c.cid) = [] := by
        rw [List.filter_eq_nil_iff]
        intro x hx
        simp only [beq_iff_eq]
        intro hcontra
        exact hna (by rw [← hcontra]; exact List.mem_map_of_mem _ hx)
      rw [hnil]
    · have ha : (a.cid == c.cid) = false := by
        rw [beq_eq_false_iff_ne]
        intro heq
        exact hna (by rw [heq]; exact List.mem_map_of_mem _ hct)
      rw [List.filter_cons, ha]
      simp only [Bool.false_eq_true, if_false]
      exact ih c hnt hct

lemma survives_self (cs : List Client) (c : Client) (hnd : (cs.map Client.cid).Nodup)
    (hc : c ∈ cs) (hok : c.sendFails = false) : survives cs c = true := by
  rw [survives, List.all_eq_true]
  intro x hx
  cases hxf : x.sendFails with
  | false => simp [hxf]
  | true =>
    have hne : c.cid ≠ x.cid := by
      intro heq
      have hcx : c = x := nodup_cid_inj cs hnd c hc x hx heq
      rw [hcx, hxf] at hok
      exact Bool.noConfusion hok
    simp [hxf, hne]

lemma receivedBy_append (i : Nat) (l1 l2 : List (Nat × List Nat)) :
    receivedBy i (l1 ++ l2) = receivedBy i l1 ++ receivedBy i l2 := by
  simp [receivedBy, List.filter_append]

lemma receivedBy_map_send (i : Nat) (d : List Nat) : ∀ (l : List Client),
    receivedBy i (l.map (fun c => (c.cid, d))) =
      (l.filter (fun x => x.cid == i)).map (fun _ => d) := by
  intro l
  induction l with
  | nil => simp [receivedBy]
  | cons a t ih =>
    by_cases h : (a.cid == i) = true
    · simp [receivedBy, List.filter_cons, h] at ih ⊢
      exact ih
    · simp only [Bool.not_eq_true] at h
      simp [receivedBy, List.filter_cons, h] at ih ⊢
      exact ih

lemma bridge_run_append : ∀ (es1 es2 : List BridgeEvent) (cs : List Client),
    bridge_run (es1 ++ es2) cs =
      ((bridge_run es2 (bridge_run es1 cs).1).1,
       (bridge_run es1 cs).2 ++ (bridge_run es2 (bridge_run es1 cs).1).2) := by
  intro es1
  induction es1 with
  | nil =>
    intro es2 cs
    simp [bridge_run]
  | cons e t ih =>
    intro es2 cs
    cases e with
    | frame d =>
      simp only [List.cons_append, bridge_run, List.append_eq, ih, List.append_assoc]
    | join c =>
      simp only [List.cons_append, bridge_run, List.append_eq, ih]
    | leave i =>
      simp only [List.cons_append, bridge_run, List.append_eq, ih]

/-! ### C2, C4: the ingest loop -/

/-- Claim C2 counterexample: a connection that delivers the two bytes
`[1, 2]` and then closes makes the ingest loop push `[1, 2]` onto the
relay queue, and `[1, 2]` is not a discrete protocol frame (a frame is
at least 4 bytes and matches its embedded length field): the loop queues
raw read chunks, not framed messages. -/
theorem read_from_dlt_raw_chunk_cex :
    (read_from_dlt_inner ⟨[1, 2], [2]⟩).1 = [[1, 2]] ∧ ¬ isDltFrame [1, 2] := by
  decide

/-- Claim C2 amended: while connected, the ingest loop repeatedly reads
raw byte chunks (up to 4096 bytes per read) and pushes each nonempty
chunk onto the relay queue in read order; every queue entry is a
nonempty chunk and the queue entries concatenate to exactly the consumed
prefix of the upstream byte stream — but entries are raw chunks, not
necessarily discrete protocol frames. -/
theorem read_from_dlt_inner_chunks (s : Sock) :
    ((read_from_dlt_inner s).1.all (fun e => !e.isEmpty) = true) ∧
    ((read_from_dlt_inner s).1.flatten ++ (read_from_dlt_inner s).2.data = s.data) :=
  inner_go_spec (s.data.length + 1) s (Nat.lt_succ_self _)

/-- Claim C4 counterexample: the stream-closed failure path (the
upstream read returned empty, `break`ing the inner loop) reaches no
exception handler, so no 5-second delay happens before the next
connection attempt — that path reconnects immediately. -/
theorem read_from_dlt_stream_closed_no_delay_cex :
    (read_from_dlt_step UpstreamFailure.streamClosed).sleepSeconds = 0 ∧
    (read_from_dlt_step UpstreamFailure.streamClosed).sleepSeconds ≠ 5 := by
  decide

/-- Claim C4 amended: every outcome of a connection pass lets the
`finally` block release the connection resource; a refused connection
and any other I/O error wait the fixed 5 seconds before the next
attempt, while a closed stream (and cancellation) proceeds with no
delay; only cancellation exits the reconnect loop. -/
theorem read_from_dlt_step_effects (f : UpstreamFailure) :
    (read_from_dlt_step f).releasesWriter = true ∧
    (read_from_dlt_step f).sleepSeconds =
      (match f with
       | UpstreamFailure.connectRefused => 5
       | UpstreamFailure.otherIOError => 5
       | UpstreamFailure.streamClosed => 0
       | UpstreamFailure.cancelled => 0) ∧
    ((read_from_dlt_step f).exitsLoop = true ↔ f = UpstreamFailure.cancelled) := by
  cases f <;> simp [read_from_dlt_step]

/-! ### C5, C6, C7: the broadcaster -/

/-- Over a run consisting purely of queued frames, a registered,
never-failing client receives exactly the queued frames in order. -/
lemma frames_delivered_in_order : ∀ (frames : List (List Nat)) (cs : List Client) (c : Client),
    (cs.map Client.cid).Nodup → c ∈ cs → c.sendFails = false →
    receivedBy c.cid (bridge_run (frames.map BridgeEvent.frame) cs).2 = frames := by
  intro frames
  induction frames with
  | nil =>
    intro cs c _ _ _
    simp [bridge_run, receivedBy]
  | cons d fs ih =>
    intro cs c hnd hc hok
    have hcs : cs ≠ [] := List.ne_nil_of_mem hc
    simp only [List.map_cons, bridge_run, broadcast_step_nonempty d cs hcs]
    rw [receivedBy_append, receivedBy_map_send]
    have hone : (cs.filter (fun x => !x.sendFails)).filter (fun x => x.cid == c.cid) = [c] := by
      apply filter_cid_singleton
      · exact List.Nodup.sublist (List.Sublist.map _ (List.filter_sublist cs)) hnd
      · exact List.mem_filter.mpr ⟨hc, by simp [hok]⟩
    rw [hone]
    have hrest : receivedBy c.cid
        (bridge_run (fs.map BridgeEvent.frame) (cs.filter (survives cs))).2 = fs := by
      apply ih
      · exact List.Nodup.sublist (List.Sublist.map _ (List.filter_sublist cs)) hnd
      · exact List.mem_filter.mpr ⟨hc, survives_self cs c hnd hc hok⟩
      · exact hok
    rw [hrest]
    simp

/-- Claim C5: for every sequence of chunks the ingest loop enqueues from
an upstream stream, and every consumer registered for the whole
broadcast interval whose sends never fail, the broadcaster delivers that
consumer exactly the enqueued sequence, in the order it was read from
upstream — no reordering, no loss, no duplication. -/
theorem frames_relayed_in_upstream_order (s : Sock) (cs : List Client) (c : Client)
    (hnd : (cs.map Client.cid).Nodup) (hc : c ∈ cs) (hok : c.sendFails = false) :
    receivedBy c.cid
      (bridge_run ((read_from_dlt_inner s).1.map BridgeEvent.frame) cs).2 =
      (read_from_dlt_inner s).1 :=
  frames_delivered_in_order (read_from_dlt_inner s).1 cs c hnd hc hok

/-- Claim C5 witness: upstream delivers `[1]` then `[2, 3]`; the sole
registered client receives `[[1], [2, 3]]` in that order. -/
theorem frames_relayed_in_upstream_order_witness :
    ((([⟨7, false⟩] : List Client).map Client.cid).Nodup ∧
      (⟨7, false⟩ : Client) ∈ ([⟨7, false⟩] : List Client) ∧
      (Client.mk 7 false).sendFails = false) ∧
    receivedBy 7
      (bridge_run ((read_from_dlt_inner ⟨[1, 2, 3], [1, 2]⟩).1.map BridgeEvent.frame)
        [⟨7, false⟩]).2 = (read_from_dlt_inner ⟨[1, 2, 3], [1, 2]⟩).1 :=
  ⟨⟨by decide, by decide, by decide⟩,
    frames_relayed_in_upstream_order ⟨[1, 2, 3], [1, 2]⟩ [⟨7, false⟩] ⟨7, false⟩
      (by decide) (by decide) (by decide)⟩

/-- Claim C6: in one broadcast pass, delivery is attempted per consumer
independently: a consumer whose send fails is removed from the registry,
while every consumer whose send succeeds both stays registered and
receives the frame — regardless of failures of other consumers in the
same pass (and the pass itself always completes: the send error is
swallowed inside the loop). -/
theorem broadcast_failure_isolated (d : List Nat) (cs : List Client) (c : Client)
    (hnd : (cs.map Client.cid).Nodup) (hc : c ∈ cs) :
    (c.sendFails = true → c ∉ (broadcast_messages_step d cs).1) ∧
    (c.sendFails = false →
      c ∈ (broadcast_messages_step d cs).1 ∧
      (c.cid, d) ∈ (broadcast_messages_step d cs).2.1) := by
  have hcs : cs ≠ [] := List.ne_nil_of_mem hc
  rw [broadcast_step_nonempty d cs hcs]
  constructor
  · intro hf hmem
    have hsv := (List.mem_filter.mp hmem).2
    rw [survives, List.all_eq_true] at hsv
    have hcc := hsv c hc
    simp [hf] at hcc
  · intro hok
    refine ⟨List.mem_filter.mpr ⟨hc, survives_self cs c hnd hc hok⟩, ?_⟩
    have hcf : c ∈ cs.filter (fun x => !x.sendFails) :=
      List.mem_filter.mpr ⟨hc, by simp [hok]⟩
    exact List.mem_map_of_mem _ hcf

/-- Claim C6 witness: spec §8 scenario — clients A (send fails) and B,
frame `F = 00 00 00 04`: B still receives F and stays registered (and A
is pruned, checked directly). -/
theorem broadcast_failure_isolated_witness :
    ((([⟨1, true⟩, ⟨2, false⟩] : List Client).map Client.cid).Nodup ∧
      (⟨2, false⟩ : Client) ∈ ([⟨1, true⟩, ⟨2, false⟩] : List Client)) ∧
    ((⟨2, false⟩ : Client) ∈ (broadcast_messages_step [0, 0, 0, 4] [⟨1, true⟩, ⟨2, false⟩]).1 ∧
      ((2 : Nat), [0, 0, 0, 4]) ∈
        (broadcast_messages_step [0, 0, 0, 4] [⟨1, true⟩, ⟨2, false⟩]).2.1) ∧
    (⟨1, true⟩ : Client) ∉ (broadcast_messages_step [0, 0, 0, 4] [⟨1, true⟩, ⟨2, false⟩]).1 :=
  ⟨⟨by decide, by decide⟩,
    (broadcast_failure_isolated [0, 0, 0, 4] [⟨1, true⟩, ⟨2, false⟩] ⟨2, false⟩
      (by decide) (by decide)).2 rfl,
    (broadcast_failure_isolated [0, 0, 0, 4] [⟨1, true⟩, ⟨2, false⟩] ⟨1, true⟩
      (by decide) (by decide)).1 rfl⟩

/-- Claim C7: a frame popped while the registry is empty is dropped:
the pass delivers it to nobody and flags the drop, and the whole
subsequent run — including consumers who join later — behaves exactly
as if the frame had never existed: it is not requeued, buffered, or
retained. -/
theorem empty_registry_drops_frame (es1 es2 : List BridgeEvent) (d : List Nat)
    (cs : List Client) (h : (bridge_run es1 cs).1 = []) :
    broadcast_messages_step d (bridge_run es1 cs).1 = ([], [], true) ∧
    bridge_run (es1 ++ BridgeEvent.frame d :: es2) cs = bridge_run (es1 ++ es2) cs := by
  constructor
  · rw [h]
    rfl
  · rw [bridge_run_append, bridge_run_append es1 es2, h]
    simp [bridge_run, broadcast_messages_step]

/-- Claim C7 witness: the queue pops `[1, 2, 3]` with no client
registered; a client joining afterwards receives only the later frame
`[9]` — the run equals the run without the dropped frame. -/
theorem empty_registry_drops_frame_witness :
    (bridge_run [] ([] : List Client)).1 = [] ∧
    (broadcast_messages_step [1, 2, 3] (bridge_run [] ([] : List Client)).1 = ([], [], true) ∧
      bridge_run ([] ++ BridgeEvent.frame [1, 2, 3] ::
          [BridgeEvent.join ⟨1, false⟩, BridgeEvent.frame [9]]) [] =
        bridge_run ([] ++ [BridgeEvent.join ⟨1, false⟩, BridgeEvent.frame [9]]) []) :=
  ⟨rfl,
    empty_registry_drops_frame [] [BridgeEvent.join ⟨1, false⟩, BridgeEvent.frame [9]]
      [1, 2, 3] [] rfl⟩

/-! ### C1, C3, C8, C9, C10: the frame reader -/

/-- Claim C1: for every `length` in `[4, 65535]` and every input stream
that begins with a 4-byte header encoding `length` big-endian at bytes
2–3 followed by `length - 4` payload bytes, `read_dlt_packet` returns
exactly those `length` bytes, header included and not stripped, for
every way the payload bytes are split across individual reads (the
first read delivers the whole 4-byte header, `4 ≤ c0`; each later read
delivers at least one byte while data remains). -/
theorem read_dlt_packet_roundtrip (h0 h1 h2 h3 : Nat) (payload rest : List Nat)
    (c0 : Nat) (cs : List Nat)
    (hlo : 4 ≤ h2 * 256 + h3) (hhi : h2 * 256 + h3 ≤ 65535)
    (hlen : payload.length = h2 * 256 + h3 - 4)
    (hc0 : 4 ≤ c0) (hcs : ∀ x ∈ cs, 1 ≤ x) :
    (read_dlt_packet ⟨h0 :: h1 :: h2 :: h3 :: (payload ++ rest), c0 :: cs⟩).1 =
      DltReadResult.packet (h0 :: h1 :: h2 :: h3 :: payload) := by
  have hdata : h0 :: h1 :: h2 :: h3 :: (payload ++ rest) =
      [h0, h1, h2, h3] ++ (payload ++ rest) := rfl
  have hk : min (min ((c0 :: cs).headD 4) 4)
      (h0 :: h1 :: h2 :: h3 :: (payload ++ rest)).length = 4 := by
    simp only [List.headD_cons, List.length_cons]
    omega
  have hrecv : recv ⟨h0 :: h1 :: h2 :: h3 :: (payload ++ rest), c0 :: cs⟩ 4 =
      ([h0, h1, h2, h3], ⟨payload ++ rest, cs⟩) := by
    simp only [recv, hk]
    simp
  obtain ⟨sch, hloop⟩ := payload_go_reads (h2 * 256 + h3 - 4) (h2 * 256 + h3 - 4)
    payload rest cs [h0, h1, h2, h3] hlen (le_refl _) hcs
  simp only [read_dlt_packet, hrecv]
  norm_num
  rw [if_neg (by omega)]
  simp only [read_payload_loop, hloop]
  rfl

/-- Claim C1 witness: length 6, payload `[10, 20]` delivered one byte
per read after a whole-header first read, one trailing stream byte. -/
theorem read_dlt_packet_roundtrip_witness :
    (4 ≤ 0 * 256 + 6 ∧ 0 * 256 + 6 ≤ 65535 ∧
      ([10, 20] : List Nat).length = 0 * 256 + 6 - 4 ∧
      4 ≤ 4 ∧ ∀ x ∈ ([1, 1] : List Nat), 1 ≤ x) ∧
    (read_dlt_packet ⟨[0, 0, 0, 6, 10, 20, 9], [4, 1, 1]⟩).1 =
      DltReadResult.packet [0, 0, 0, 6, 10, 20] :=
  ⟨by decide,
    read_dlt_packet_roundtrip 0 0 0 6 [10, 20] [9] 4 [1, 1]
      (by decide) (by decide) (by decide) (by decide) (by decide)⟩

/-- Claim C3: whenever the header read returns a full 4-byte header
whose decoded length is outside `[4, 65535]`, `read_dlt_packet` signals
the framing error — a signal distinct from its end-of-stream signal —
returns no frame, and consumes no byte beyond the header (the returned
stream state is exactly the post-header state, so no further bytes are
read as a valid frame). -/
theorem read_dlt_packet_invalid_length (s : Sock) (h0 h1 h2 h3 : Nat)
    (hhdr : (recv s 4).1 = [h0, h1, h2, h3])
    (hbad : h2 * 256 + h3 < 4 ∨ h2 * 256 + h3 > 65535) :
    read_dlt_packet s = (DltReadResult.framingError (h2 * 256 + h3), (recv s 4).2) ∧
      DltReadResult.framingError (h2 * 256 + h3) ≠ DltReadResult.eof := by
  constructor
  · simp only [read_dlt_packet, hhdr, List.length_cons, List.length_nil]
    rw [if_neg (by omega)]
    simp only [List.getD_cons_succ, List.getD_cons_zero]
    rw [if_pos hbad]
  · simp

/-- Claim C3 witness: header `00 00 00 02` (decoded length 2) followed
by two stream bytes that the reader must not consume. -/
theorem read_dlt_packet_invalid_length_witness :
    ((recv ⟨[0, 0, 0, 2, 7, 7], [4]⟩ 4).1 = [0, 0, 0, 2] ∧
      ((0 : Nat) * 256 + 2 < 4 ∨ (0 : Nat) * 256 + 2 > 65535)) ∧
    read_dlt_packet ⟨[0, 0, 0, 2, 7, 7], [4]⟩ =
      (DltReadResult.framingError (0 * 256 + 2), (recv ⟨[0, 0, 0, 2, 7, 7], [4]⟩ 4).2) :=
  ⟨⟨by decide, by decide⟩,
    (read_dlt_packet_invalid_length ⟨[0, 0, 0, 2, 7, 7], [4]⟩ 0 0 0 2
      (by decide) (by decide)).1⟩

/-- Claim C8: every frame returned by `read_dlt_packet`, over every
possible input stream, satisfies the Frame invariant: its total byte
length equals the big-endian 16-bit length field at header bytes 2–3,
and that length lies in `[4, 65535]`. -/
theorem read_dlt_packet_frame_invariant (s : Sock) (bs : List Nat) (s' : Sock)
    (h : read_dlt_packet s = (DltReadResult.packet bs, s')) : isDltFrame bs := by
  have hle4 : (recv s 4).1.length ≤ 4 := recv_fst_length_le s 4
  simp only [read_dlt_packet] at h
  by_cases hshort : (recv s 4).1.length < 4
  · rw [if_pos hshort] at h
    simp at h
  · rw [if_neg hshort] at h
    have hlen4 : (recv s 4).1.length = 4 := by omega
    by_cases hbad : (recv s 4).1.getD 2 0 * 256 + (recv s 4).1.getD 3 0 < 4 ∨
        (recv s 4).1.getD 2 0 * 256 + (recv s 4).1.getD 3 0 > 65535
    · rw [if_pos hbad] at h
      simp at h
    · rw [if_neg hbad] at h
      push_neg at hbad
      obtain ⟨hge, hle⟩ := hbad
      simp only [read_payload_loop] at h
      set L := (recv s 4).1.getD 2 0 * 256 + (recv s 4).1.getD 3 0 with hL
      match hp : (payload_go (L - 4) (recv s 4).2 (L - 4) (recv s 4).1).1 with
      | none =>
        rw [hp] at h
        simp at h
      | some msg =>
        rw [hp] at h
        simp only [Prod.mk.injEq, DltReadResult.packet.injEq] at h
        obtain ⟨hbs, _⟩ := h
        subst hbs
        obtain ⟨extra, hmsg, hextra⟩ := payload_go_some (L - 4) (L - 4) (recv s 4).2
          (recv s 4).1 msg _ (le_refl _)
          (by rw [← hp])
        subst hmsg
        constructor
        · rw [getD_append_left _ _ 2 0 (by omega), getD_append_left _ _ 3 0 (by omega)]
          simp only [List.length_append, hlen4, hextra, ← hL]
          omega
        · constructor
          · simp [List.length_append, hlen4]
          · simp only [List.length_append, hlen4, hextra, ← hL]
            omega

/-- Claim C8 witness: the reader on a concrete stream returns the
10-byte frame `00 00 00 0A` + 6 payload bytes, which satisfies the
Frame invariant. -/
theorem read_dlt_packet_frame_invariant_witness :
    read_dlt_packet ⟨[0, 0, 0, 10, 1, 2, 3, 4, 5, 6, 99], [7, 3, 3]⟩ =
      (DltReadResult.packet [0, 0, 0, 10, 1, 2, 3, 4, 5, 6], ⟨[99], []⟩) ∧
    isDltFrame [0, 0, 0, 10, 1, 2, 3, 4, 5, 6] :=
  ⟨by decide,
    read_dlt_packet_frame_invariant ⟨[0, 0, 0, 10, 1, 2, 3, 4, 5, 6, 99], [7, 3, 3]⟩
      [0, 0, 0, 10, 1, 2, 3, 4, 5, 6] ⟨[99], []⟩ (by decide)⟩

/-- Claim C9 counterexample: the stream holds a complete valid 4-byte
frame — it has not ended — but the first read delivers only 2 bytes and
`read_dlt_packet` signals end-of-stream instead of issuing another read
for the remaining header bytes; the same stream content delivered in one
read yields the frame.  So the reader does not issue repeated reads for
the header, and it can signal end-of-stream while the stream has not
actually ended. -/
theorem read_dlt_packet_header_single_read_cex :
    (read_dlt_packet ⟨[0, 0, 0, 4], [2, 2]⟩).1 = DltReadResult.eof ∧
    (read_dlt_packet ⟨[0, 0, 0, 4], [2, 2]⟩).2.data = [0, 4] ∧
    isDltFrame [0, 0, 0, 4] ∧
    (read_dlt_packet ⟨[0, 0, 0, 4], [4]⟩).1 = DltReadResult.packet [0, 0, 0, 4] := by
  decide

/-- Claim C9 amended: the frame reader issues a single read of up to 4
bytes for the header; whenever that one read returns fewer than 4 bytes
— whether the stream ended or merely delivered a partial header — it
signals end-of-stream (not a framing error) and reads nothing further. -/
theorem read_dlt_packet_short_header_eof (s : Sock)
    (h : (recv s 4).1.length < 4) :
    read_dlt_packet s = (DltReadResult.eof, (recv s 4).2) := by
  simp only [read_dlt_packet]
  rw [if_pos h]

/-- Claim C9 amended witness: first read delivers 2 of the 4 available
bytes; the reader signals end-of-stream at once. -/
theorem read_dlt_packet_short_header_eof_witness :
    (recv ⟨[0, 0, 0, 4], [2, 2]⟩ 4).1.length < 4 ∧
    read_dlt_packet ⟨[0, 0, 0, 4], [2, 2]⟩ =
      (DltReadResult.eof, (recv ⟨[0, 0, 0, 4], [2, 2]⟩ 4).2) :=
  ⟨by decide, read_dlt_packet_short_header_eof ⟨[0, 0, 0, 4], [2, 2]⟩ (by decide)⟩

/-- Claim C10: when every stream byte is a genuine octet (`< 256`), the
length decoded big-endian from header bytes 2–3 is at most 65535, so
the `msg_len > 65535` arm of the validation is unreachable: whenever
`read_dlt_packet` signals a framing error, the offending decoded length
is below 4. -/
theorem read_dlt_packet_overflow_branch_unreachable (s : Sock) (len : Nat) (s' : Sock)
    (hbytes : ∀ b ∈ s.data, b < 256)
    (h : read_dlt_packet s = (DltReadResult.framingError len, s')) : len < 4 := by
  have hle4 : (recv s 4).1.length ≤ 4 := recv_fst_length_le s 4
  simp only [read_dlt_packet] at h
  by_cases hshort : (recv s 4).1.length < 4
  · rw [if_pos hshort] at h
    simp at h
  · rw [if_neg hshort] at h
    have hlen4 : (recv s 4).1.length = 4 := by omega
    have hb2 : (recv s 4).1.getD 2 0 < 256 :=
      hbytes _ (recv_fst_subset s 4 _ (getD_mem _ 2 0 (by omega)))
    have hb3 : (recv s 4).1.getD 3 0 < 256 :=
      hbytes _ (recv_fst_subset s 4 _ (getD_mem _ 3 0 (by omega)))
    by_cases hbad : (recv s 4).1.getD 2 0 * 256 + (recv s 4).1.getD 3 0 < 4 ∨
        (recv s 4).1.getD 2 0 * 256 + (recv s 4).1.getD 3 0 > 65535
    · rw [if_pos hbad] at h
      simp only [Prod.mk.injEq, DltReadResult.framingError.injEq] at h
      omega
    · rw [if_neg hbad] at h
      simp only [read_payload_loop] at h
      match hp : (payload_go ((recv s 4).1.getD 2 0 * 256 + (recv s 4).1.getD 3 0 - 4)
          (recv s 4).2 ((recv s 4).1.getD 2 0 * 256 + (recv s 4).1.getD 3 0 - 4)
          (recv s 4).1).1 with
      | none =>
        rw [hp] at h
        simp at h
      | some msg =>
        rw [hp] at h
        simp at h

/-- Claim C10 witness: a byte-valid stream whose header decodes to 2
triggers the framing error with a length below 4. -/
theorem read_dlt_packet_overflow_branch_unreachable_witness :
    ((∀ b ∈ ([0, 0, 0, 2] : List Nat), b < 256) ∧
      read_dlt_packet ⟨[0, 0, 0, 2], [4]⟩ = (DltReadResult.framingError 2, ⟨[], []⟩)) ∧
    2 < 4 :=
  ⟨⟨by decide, by decide⟩,
    read_dlt_packet_overflow_branch_unreachable ⟨[0, 0, 0, 2], [4]⟩ 2 ⟨[], []⟩
      (by decide) (by decide)⟩

end DltProtocol
